import Mathlib

/-!
Verification of the lead-splitter application (`src/app.py`).

The development shallowly embeds the pipeline of the program:
ingestion and merge of uploaded CSV files (`process_uploaded_files`),
the fair random partition (`df.sample(frac=1)` followed by
`np.array_split(shuffled_df, num_people)`), CSV serialization
(`df.to_csv(index=False)`), file-name synthesis
(`f"leads_{today_str}_{name.replace(' ', '_')}.csv"`), and the
per-recipient download loop.

Modelling conventions:
* A DataFrame is a header (column names) plus a list of rows; cells are
  strings (the textual layer of the tabular format).
* The random shuffle is taken as an input (an arbitrary permutation
  function): the claims quantify over the already-shuffled record set.
* A file upload is its name plus the outcome of decoding and parsing it
  (`Except`): the try/except of the source catches any parser exception.
* `np.array_split` is embedded by its documented and implemented
  semantics: with `T = len(l)` and `N` sections, the first `T % N`
  sections have size `T / N + 1` and the remaining sections size `T / N`.
-/

namespace LeadSplitter

/-- A row of a tabular file: one cell per column. -/
abbrev Row := List String

/-- A pandas DataFrame, modelled as its header (column names, in order)
and its data rows (each row lists the cells in column order). -/
structure Df where
  header : List String
  rows : List Row
deriving Repr, DecidableEq

/-- `pd.DataFrame.empty`: true when some axis has length 0
(no rows or no columns). -/
def Df.isEmptyDf (df : Df) : Bool := df.rows.isEmpty || df.header.isEmpty

/-- `pd.DataFrame()`: the empty frame returned by `process_uploaded_files`
when nothing parses. -/
def emptyDf : Df := ⟨[], []⟩

/-! ## `np.array_split` (src/app.py line 128)

numpy computes `Neach_section, extras = divmod(Ntotal, Nsections)` and
section sizes `extras * [Neach_section + 1] + (Nsections - extras) *
[Neach_section]`, then slices at the cumulative sums. We embed this as
the list of section sizes followed by successive take/drop. -/

/-- The numpy section sizes: `T % N` sections of size `T / N + 1`
followed by `N - T % N` sections of size `T / N`. -/
def sectionSizes (T N : Nat) : List Nat :=
  List.replicate (T % N) (T / N + 1) ++ List.replicate (N - T % N) (T / N)

/-- Cut a list into consecutive pieces of the given sizes. -/
def splitBySizes : List α → List Nat → List (List α)
  | _, [] => []
  | l, k :: ks => l.take k :: splitBySizes (l.drop k) ks

/-- `np.array_split(l, n)`: split `l` into `n` consecutive sections whose
sizes follow `sectionSizes`. -/
def array_split (l : List α) (n : Nat) : List (List α) :=
  splitBySizes l (sectionSizes l.length n)

/-! ## Ingestion and merge (`process_uploaded_files`, src/app.py lines 11-38)

An uploaded file is its name together with the outcome of
`uploaded_file.getvalue().decode('utf-8')` followed by `pd.read_csv`:
either a DataFrame or the message of the raised exception.  The per-file
`st.warning` / `st.error` calls are modelled as a list of diagnostics. -/

/-- An uploaded file: its name and the result of decoding and parsing
its bytes (`Except` models the exception raised inside the `try`). -/
structure UploadedFile where
  name : String
  parsed : Except String Df
deriving Repr

/-- The diagnostics the app surfaces (`st.warning` / `st.error`). -/
inductive Diag
  | warnEmptyFile (name : String)
  | errorFile (name : String) (msg : String)
  | errorNoData
  | warnNoValidData
deriving Repr, DecidableEq

/-- Accumulator of the ingestion loop: `all_dfs`, `error_files`, and the
diagnostics emitted so far. -/
abbrev IngestAcc := List Df × List String × List Diag

/-- One iteration of the `for uploaded_file in uploaded_files` loop:
a parsed non-empty frame is appended to `all_dfs`; a parsed empty frame
surfaces a warning; an exception appends to `error_files` and surfaces
an error. -/
def ingestStep (acc : IngestAcc) (f : UploadedFile) : IngestAcc :=
  match f.parsed with
  | .ok df =>
    if df.isEmptyDf then (acc.1, acc.2.1, acc.2.2 ++ [Diag.warnEmptyFile f.name])
    else (acc.1 ++ [df], acc.2.1, acc.2.2)
  | .error e => (acc.1, acc.2.1 ++ [f.name], acc.2.2 ++ [Diag.errorFile f.name e])

/-- `pd.concat(all_dfs, ignore_index=True)` for same-schema frames:
the header of the first frame, all rows in order. -/
def concatDfs (dfs : List Df) : Df :=
  ⟨(dfs.head?).elim [] Df.header, (dfs.map Df.rows).flatten⟩

/-- `process_uploaded_files` (src/app.py lines 11-38): fold the loop over
the files, then return the empty frame (plus the no-data error) when
nothing was collected, and the concatenation otherwise. -/
def process_uploaded_files (files : List UploadedFile) : Df × List String × List Diag :=
  if files.isEmpty then (emptyDf, [], [])
  else
    let acc := files.foldl ingestStep ([], [], [])
    if acc.1.isEmpty then (emptyDf, acc.2.1, acc.2.2 ++ [Diag.errorNoData])
    else (concatDfs acc.1, acc.2.1, acc.2.2)

/-- The successfully parsed, non-empty frames, in upload order. -/
def okNonEmptyDfs (files : List UploadedFile) : List Df :=
  files.filterMap fun f =>
    match f.parsed with
    | .ok df => if df.isEmptyDf then none else some df
    | .error _ => none

/-- The names of the files whose parse raised, in upload order
(the `error_files` list of the source). -/
def errorNames (files : List UploadedFile) : List String :=
  files.filterMap fun f =>
    match f.parsed with
    | .ok _ => none
    | .error _ => some f.name

/-- The per-file diagnostics emitted by the loop, in upload order. -/
def fileDiags (files : List UploadedFile) : List Diag :=
  files.filterMap fun f =>
    match f.parsed with
    | .ok df => if df.isEmptyDf then some (Diag.warnEmptyFile f.name) else none
    | .error e => some (Diag.errorFile f.name e)

/-! ## CSV serialization and parsing

`df.to_csv(index=False)` writes the header line followed by one line per
row, fields separated by commas, each line terminated by a newline, with
minimal quoting: a field containing a comma, a double quote, a newline or
a carriage return is wrapped in double quotes with inner quotes doubled.
`pd.read_csv` parses that format back.  Cells are modelled as strings
(the textual layer of the format). -/

/-- The double-quote character. -/
def dquote : Char := Char.ofNat 34

/-- A character forcing the field to be quoted (csv QUOTE_MINIMAL). -/
def isSpecialChar (c : Char) : Bool :=
  c = ',' || c = dquote || c = '\n' || c = '\r'

/-- Does the field need quoting? -/
def needsQuote (cs : List Char) : Bool := cs.any isSpecialChar

/-- Double every double quote (csv escaping inside a quoted field). -/
def escQ : List Char → List Char
  | [] => []
  | c :: cs => if c = dquote then dquote :: dquote :: escQ cs else c :: escQ cs

/-- Encode one field, quoting it when needed. -/
def encField (cs : List Char) : List Char :=
  if needsQuote cs then dquote :: (escQ cs ++ [dquote]) else cs

/-- Encode one row: fields joined by commas. -/
def encRow : List (List Char) → List Char
  | [] => []
  | [f] => encField f
  | f :: fs => encField f ++ ',' :: encRow fs

/-- Encode a whole table: one line per row, each terminated by a newline. -/
def encCSV (rows : List (List (List Char))) : List Char :=
  (rows.map (fun r => encRow r ++ ['\n'])).flatten

/-- `df.to_csv(index=False)`: header line then data lines. -/
def to_csv (df : Df) : String :=
  String.mk (encCSV ((df.header :: df.rows).map (List.map String.toList)))

/-- Parse the inside of a quoted field (the opening quote has been
consumed): a doubled quote is a literal quote, a single quote closes the
field; returns the field and the unconsumed rest. -/
def parseQField : List Char → List Char × List Char
  | [] => ([], [])
  | c :: rest =>
    if c = dquote then
      match rest with
      | c2 :: rest2 =>
        if c2 = dquote then
          let p := parseQField rest2
          (dquote :: p.1, p.2)
        else ([], rest)
      | [] => ([], [])
    else
      let p := parseQField rest
      (c :: p.1, p.2)

/-- Parse an unquoted field: read until a comma or a newline (left
unconsumed) or the end of input. -/
def parseUField : List Char → List Char × List Char
  | [] => ([], [])
  | c :: rest =>
    if c = ',' || c = '\n' then ([], c :: rest)
    else
      let p := parseUField rest
      (c :: p.1, p.2)

/-- Parse one field: quoted when it starts with a double quote. -/
def parseField : List Char → List Char × List Char
  | [] => ([], [])
  | c :: rest => if c = dquote then parseQField rest else parseUField (c :: rest)

/-- Parse one record (fuelled; the fuel bounds the number of fields, and
the wrapper `parseRow` always supplies enough): fields separated by
commas, terminated by a newline or the end of input. -/
def parseRowF : Nat → List Char → List (List Char) × List Char
  | 0, cs => ([], cs)
  | fuel+1, cs =>
    let p := parseField cs
    match p.2 with
    | c :: rest =>
      if c = ',' then
        let q := parseRowF fuel rest
        (p.1 :: q.1, q.2)
      else if c = '\n' then ([p.1], rest)
      else ([p.1], p.2)
    | [] => ([p.1], [])

/-- Parse one record of a csv text. -/
def parseRow (cs : List Char) : List (List Char) × List Char :=
  parseRowF (cs.length + 1) cs

/-- Parse a whole csv text into records (fuelled; the fuel bounds the
number of records plus skipped lines, and the wrapper `parseCSV` always
supplies enough).  A completely empty line is skipped without producing
a record: this is pandas' default `skip_blank_lines=True`. -/
def parseCSVF : Nat → List Char → List (List (List Char))
  | 0, _ => []
  | fuel+1, cs =>
    match cs with
    | [] => []
    | c :: rest =>
      if c = '\n' then parseCSVF fuel rest
      else
        let p := parseRow (c :: rest)
        p.1 :: parseCSVF fuel p.2

/-- Parse a whole csv text into its records. -/
def parseCSV (cs : List Char) : List (List (List Char)) :=
  parseCSVF (cs.length + 1) cs

/-- `pd.read_csv` (with its default `skip_blank_lines=True`): the first
record is the header, the rest are the data rows; an input with no
records raises (`EmptyDataError`). -/
def read_csv (s : String) : Except String Df :=
  match parseCSV s.toList with
  | [] => Except.error "No columns to parse from file"
  | h :: rs => Except.ok ⟨h.map String.mk, rs.map (fun r => r.map String.mk)⟩

/-! ## File names and the download loop (src/app.py lines 130-167) -/

/-- Python's `name.replace(' ', '_')`: every space character becomes an
underscore; every other character is untouched. -/
def replaceSpaces (s : String) : String :=
  String.mk (s.toList.map fun c => if c = ' ' then '_' else c)

/-- `f"leads_{today_str}_{name.replace(' ', '_')}.csv"` (line 141). -/
def filenameFor (todayStr name : String) : String :=
  "leads_" ++ todayStr ++ "_" ++ replaceSpaces name ++ ".csv"

/-- Modelled from the spec: the sanitize step read as replacing every
whitespace character of the recipient name with an underscore (the
claim's wording; the source only replaces the space character). -/
def sanitizeWhitespaceSpec (s : String) : String :=
  String.mk (s.toList.map fun c => if c.isWhitespace then '_' else c)

/-- What the loop body produces for one recipient: a download button
(name, file name, csv bytes, lead count), the no-leads message for an
empty share, or the no-split-data message when the index is out of
range. -/
inductive RecipientOutput
  | download (name : String) (filename : String) (csvBytes : String) (leadCount : Nat)
  | noLeads (name : String)
  | noSplitData (name : String)
deriving Repr, DecidableEq

/-- Is this output an actual (name, bytes) download pair? -/
def RecipientOutput.isDownload : RecipientOutput → Bool
  | .download _ _ _ _ => true
  | _ => false

/-- Is this output the unreachable no-split-data message (line 167)? -/
def RecipientOutput.isNoSplitData : RecipientOutput → Bool
  | .noSplitData _ => true
  | _ => false

/-- The recipient this output belongs to. -/
def RecipientOutput.recipientName : RecipientOutput → String
  | .download n _ _ _ => n
  | .noLeads n => n
  | .noSplitData n => n

/-- The `for i, name in enumerate(names)` loop (lines 137-167), with `i`
the running index. -/
def recipientOutputsGo (splitDfs : List Df) (todayStr : String) :
    Nat → List String → List RecipientOutput
  | _, [] => []
  | i, name :: rest =>
    (if h : i < splitDfs.length then
      let personDf := splitDfs.get ⟨i, h⟩
      if personDf.isEmptyDf then RecipientOutput.noLeads name
      else RecipientOutput.download name (filenameFor todayStr name)
        (to_csv personDf) personDf.rows.length
    else RecipientOutput.noSplitData name)
      :: recipientOutputsGo splitDfs todayStr (i + 1) rest

/-- The outputs of the download loop, one per recipient in order. -/
def recipientOutputs (names : List String) (splitDfs : List Df)
    (todayStr : String) : List RecipientOutput :=
  recipientOutputsGo splitDfs todayStr 0 names

/-- `np.array_split(shuffled_df, num_people)` on a DataFrame: every
share keeps the columns, the rows are split fairly. -/
def splitShares (header : List String) (shuffledRows : List Row)
    (numPeople : Nat) : List Df :=
  (array_split shuffledRows numPeople).map (fun rs => ⟨header, rs⟩)

/-- The pipeline downstream of the shuffle (lines 124-167): split the
shuffled rows among the recipients and run the download loop. -/
def downstream (header : List String) (shuffledRows : List Row)
    (names : List String) (todayStr : String) : List RecipientOutput :=
  recipientOutputs names (splitShares header shuffledRows names.length) todayStr

/-- One processing invocation (lines 106-171): ingest and merge, stop
with a warning when nothing was loaded, otherwise shuffle (the
permutation is an input: the only random step) and run the loop. -/
def appRun (files : List UploadedFile) (names : List String)
    (shuffle : List Row → List Row) (todayStr : String) :
    List RecipientOutput × List Diag :=
  let pr := process_uploaded_files files
  if pr.1.isEmptyDf then ([], pr.2.2 ++ [Diag.warnNoValidData])
  else (downstream pr.1.header (shuffle pr.1.rows) names todayStr, pr.2.2)

/-- A position where a field may legally end: the end of the input, or a
comma or newline separator. -/
def sepStart (r : List Char) : Prop :=
  r = [] ∨ (∃ t, r = ',' :: t) ∨ (∃ t, r = '\n' :: t)

/-! ## Theorems -/

theorem sum_sectionSizes (T N : Nat) (h : 1 ≤ N) : (sectionSizes T N).sum = T := by
  have hr : T % N < N := Nat.mod_lt _ (by omega)
  have hdm : N * (T / N) + T % N = T := Nat.div_add_mod T N
  simp only [sectionSizes, List.sum_append, List.sum_replicate, smul_eq_mul]
  set q := T / N with hq
  set r := T % N with hrr
  have h1 : (N - r) * q = N * q - r * q := Nat.sub_mul N r q
  have h2 : r * (q + 1) = r * q + r := by ring
  have h3 : r * q ≤ N * q := Nat.mul_le_mul_right q (le_of_lt hr)
  omega

theorem length_splitBySizes (l : List α) (ks : List Nat) :
    (splitBySizes l ks).length = ks.length := by
  induction ks generalizing l with
  | nil => rfl
  | cons k ks ih => simp [splitBySizes, ih]

theorem length_sectionSizes (T N : Nat) (h : 1 ≤ N) :
    (sectionSizes T N).length = N := by
  have hr : T % N < N := Nat.mod_lt _ (by omega)
  simp [sectionSizes]
  omega

/-- Splitting at sizes that fit inside the list produces pieces of
exactly those sizes. -/
theorem map_length_splitBySizes (l : List α) (ks : List Nat)
    (h : ks.sum ≤ l.length) : (splitBySizes l ks).map List.length = ks := by
  induction ks generalizing l with
  | nil => rfl
  | cons k ks ih =>
    simp only [List.sum_cons] at h
    have hk : k ≤ l.length := by omega
    have hdrop : ks.sum ≤ (l.drop k).length := by
      simp [List.length_drop]; omega
    simp [splitBySizes, List.length_take, Nat.min_eq_left hk, ih _ hdrop]

/-- Splitting at sizes that cover the list loses nothing: the
concatenation of the pieces is the original list. -/
theorem join_splitBySizes (l : List α) (ks : List Nat)
    (h : l.length ≤ ks.sum) : (splitBySizes l ks).flatten = l := by
  induction ks generalizing l with
  | nil =>
    simp only [List.sum_nil, Nat.le_zero, List.length_eq_zero] at h
    simp [splitBySizes, h]
  | cons k ks ih =>
    simp only [List.sum_cons] at h
    have hdrop : (l.drop k).length ≤ ks.sum := by
      simp [List.length_drop]; omega
    simp [splitBySizes, List.flatten_cons, ih _ hdrop]

theorem length_array_split (l : List α) (N : Nat) (h : 1 ≤ N) :
    (array_split l N).length = N := by
  rw [array_split, length_splitBySizes, length_sectionSizes _ _ h]

theorem map_length_array_split (l : List α) (N : Nat) (h : 1 ≤ N) :
    (array_split l N).map List.length = sectionSizes l.length N :=
  map_length_splitBySizes _ _ (le_of_eq (sum_sectionSizes _ _ h))

theorem join_array_split (l : List α) (N : Nat) (h : 1 ≤ N) :
    (array_split l N).flatten = l :=
  join_splitBySizes _ _ (le_of_eq (sum_sectionSizes _ _ h).symm)

/-- Ceiling division characterized through floor division and remainder. -/
theorem ceil_div_eq (T N : Nat) (h : 1 ≤ N) :
    (T + N - 1) / N = if T % N = 0 then T / N else T / N + 1 := by
  by_cases hr : T % N = 0
  · obtain ⟨q, hq⟩ : N ∣ T := Nat.dvd_of_mod_eq_zero hr
    subst hq
    rw [if_pos hr, Nat.add_sub_assoc h, Nat.mul_add_div (by omega),
      Nat.div_eq_of_lt (by omega), Nat.mul_div_cancel_left _ (by omega)]
    omega
  · rw [if_neg hr]
    have hq := Nat.div_add_mod T N
    set q := T / N
    set r := T % N
    have hrN : r < N := Nat.mod_lt _ (by omega)
    have hr1 : 1 ≤ r := Nat.one_le_iff_ne_zero.mpr hr
    rw [← hq]
    have h1 : N * q + r + N - 1 = N * q + (r + N - 1) := by
      rw [Nat.add_assoc, Nat.add_sub_assoc (by omega : 1 ≤ r + N)]
    rw [h1, Nat.mul_add_div (by omega)]
    have h2 : r + N - 1 = N * 1 + (r - 1) := by omega
    rw [h2, Nat.mul_add_div (by omega), Nat.div_eq_of_lt (by omega)]

/-- The ingestion loop, characterized: it extends its accumulators with
the parsed non-empty frames, the failing file names, and the per-file
diagnostics, each in upload order. -/
theorem foldl_ingestStep (files : List UploadedFile) (acc : IngestAcc) :
    files.foldl ingestStep acc =
      (acc.1 ++ okNonEmptyDfs files, acc.2.1 ++ errorNames files,
       acc.2.2 ++ fileDiags files) := by
  induction files generalizing acc with
  | nil => simp [okNonEmptyDfs, errorNames, fileDiags]
  | cons f fs ih =>
    rw [List.foldl_cons, ih]
    cases hp : f.parsed with
    | ok df =>
      by_cases hdf : df.isEmptyDf
      · simp [ingestStep, hp, hdf, okNonEmptyDfs, errorNames, fileDiags,
          List.filterMap_cons]
      · simp [ingestStep, hp, hdf, okNonEmptyDfs, errorNames, fileDiags,
          List.filterMap_cons]
    | error e =>
      simp [ingestStep, hp, okNonEmptyDfs, errorNames, fileDiags,
        List.filterMap_cons]

theorem process_fst (files : List UploadedFile) :
    (process_uploaded_files files).1 =
      if (okNonEmptyDfs files).isEmpty then emptyDf
      else concatDfs (okNonEmptyDfs files) := by
  by_cases hf : files.isEmpty
  · have hnil : files = [] := by simpa [List.isEmpty_iff] using hf
    subst hnil
    simp [process_uploaded_files, okNonEmptyDfs]
  · rw [process_uploaded_files, if_neg hf]
    rw [foldl_ingestStep]
    by_cases hd : (okNonEmptyDfs files).isEmpty
    · simp [hd]
    · simp [hd]

theorem process_errs (files : List UploadedFile) :
    (process_uploaded_files files).2.1 = errorNames files := by
  by_cases hf : files.isEmpty
  · have hnil : files = [] := by simpa [List.isEmpty_iff] using hf
    subst hnil
    simp [process_uploaded_files, errorNames]
  · rw [process_uploaded_files, if_neg hf]
    rw [foldl_ingestStep]
    by_cases hd : (okNonEmptyDfs files).isEmpty
    · simp [hd]
    · simp [hd]

theorem process_diags (files : List UploadedFile) (h : ¬ files.isEmpty) :
    (process_uploaded_files files).2.2 =
      fileDiags files ++
        (if (okNonEmptyDfs files).isEmpty then [Diag.errorNoData] else []) := by
  rw [process_uploaded_files, if_neg h]
  rw [foldl_ingestStep]
  by_cases hd : (okNonEmptyDfs files).isEmpty
  · simp [hd]
  · simp [hd]

theorem okNonEmptyDfs_append (a b : List UploadedFile) :
    okNonEmptyDfs (a ++ b) = okNonEmptyDfs a ++ okNonEmptyDfs b :=
  List.filterMap_append a b _

theorem errorNames_append (a b : List UploadedFile) :
    errorNames (a ++ b) = errorNames a ++ errorNames b :=
  List.filterMap_append a b _

theorem fileDiags_append (a b : List UploadedFile) :
    fileDiags (a ++ b) = fileDiags a ++ fileDiags b :=
  List.filterMap_append a b _

/-- C1 (corrected), counterexample to the claim as stated: with `T = 4`
records and `N = 2` recipients the remainder is `0`, yet both shares
have size `⌈4/2⌉ = 2`, so it is false that exactly `T mod N = 0` shares
have size `⌈T/N⌉`. -/
theorem C1_counterexample :
    ¬ ((((array_split [0, 1, 2, 3] 2).map List.length).count ((4 + 2 - 1) / 2))
        = 4 % 2) := by decide

/-- C1 (amended): for every shuffled record list and every `N ≥ 2`, the
split produces exactly `N` shares; the share sizes are, left to right,
`T mod N` shares of size `T div N + 1` followed by `N - T mod N` shares
of size `T div N`; any two share sizes differ by at most `1`; and the
number of shares of size `⌈T/N⌉` is `T mod N` when `N` does not divide
`T`, and `N` (all of them) when it does. -/
theorem C1_amended_fair_split (shuffled : List Row) (N : Nat) (hN : 2 ≤ N) :
    (array_split shuffled N).length = N
    ∧ (array_split shuffled N).map List.length =
        List.replicate (shuffled.length % N) (shuffled.length / N + 1) ++
          List.replicate (N - shuffled.length % N) (shuffled.length / N)
    ∧ (∀ a ∈ (array_split shuffled N).map List.length,
        ∀ b ∈ (array_split shuffled N).map List.length, a ≤ b + 1)
    ∧ ((array_split shuffled N).map List.length).count
          ((shuffled.length + N - 1) / N) =
        (if shuffled.length % N = 0 then N else shuffled.length % N) := by
  have h1 : 1 ≤ N := by omega
  have hlen := length_array_split shuffled N h1
  have hmap := map_length_array_split shuffled N h1
  rw [sectionSizes] at hmap
  refine ⟨hlen, hmap, ?_, ?_⟩
  · intro a ha b hb
    rw [hmap] at ha hb
    simp only [List.mem_append, List.mem_replicate] at ha hb
    rcases ha with ⟨-, rfl⟩ | ⟨-, rfl⟩ <;> rcases hb with ⟨-, hb⟩ | ⟨-, hb⟩ <;> omega
  · rw [hmap, ceil_div_eq _ _ h1, List.count_append]
    by_cases hr : shuffled.length % N = 0
    · simp [hr, List.count_replicate]
    · have hrN : shuffled.length % N < N := Nat.mod_lt _ (by omega)
      simp [hr, List.count_replicate]

/-- C1 witness: five records, two recipients. -/
theorem C1_witness :
    (array_split ([["a"], ["b"], ["c"], ["d"], ["e"]] : List Row) 2).length = 2
    ∧ (array_split ([["a"], ["b"], ["c"], ["d"], ["e"]] : List Row) 2).map
          List.length =
        List.replicate (5 % 2) (5 / 2 + 1) ++ List.replicate (2 - 5 % 2) (5 / 2)
    ∧ (∀ a ∈ (array_split ([["a"], ["b"], ["c"], ["d"], ["e"]] : List Row) 2).map
          List.length,
        ∀ b ∈ (array_split ([["a"], ["b"], ["c"], ["d"], ["e"]] : List Row) 2).map
          List.length, a ≤ b + 1)
    ∧ ((array_split ([["a"], ["b"], ["c"], ["d"], ["e"]] : List Row) 2).map
          List.length).count ((5 + 2 - 1) / 2) =
        (if 5 % 2 = 0 then 2 else 5 % 2) :=
  C1_amended_fair_split [["a"], ["b"], ["c"], ["d"], ["e"]] 2 (by omega)

/-- C2: for every shuffled record list and every `N ≥ 2`, the split
produces `N` contiguous non-overlapping slices whose concatenation in
recipient order is exactly the shuffled list — no record dropped, none
duplicated. -/
theorem C2_partition_complete (shuffled : List Row) (N : Nat) (hN : 2 ≤ N) :
    (array_split shuffled N).length = N
    ∧ (array_split shuffled N).flatten = shuffled :=
  ⟨length_array_split _ _ (by omega), join_array_split _ _ (by omega)⟩

/-- C2 witness: three records, two recipients. -/
theorem C2_witness :
    (array_split ([["a"], ["b"], ["c"]] : List Row) 2).length = 2
    ∧ (array_split ([["a"], ["b"], ["c"]] : List Row) 2).flatten =
        [["a"], ["b"], ["c"]] :=
  C2_partition_complete [["a"], ["b"], ["c"]] 2 (by omega)

/-- C4: the merged record set is the concatenation of the row lists of
the successfully parsed, non-empty files, in upload order, preserving
the row order within each file. -/
theorem C4_merge_order (files : List UploadedFile) :
    (process_uploaded_files files).1.rows =
      ((okNonEmptyDfs files).map Df.rows).flatten := by
  rw [process_fst]
  by_cases hd : (okNonEmptyDfs files).isEmpty
  · have hnil : okNonEmptyDfs files = [] := by
      simpa [List.isEmpty_iff] using hd
    simp [hd, hnil, emptyDf]
  · simp [hd, concatDfs]

/-- C5: a file whose parse raises is skipped in place: the merged frame
is the one obtained from the remaining files alone, the failing file's
name is recorded in `error_files`, and a skipped-error diagnostic naming
it is surfaced — the batch is never aborted. -/
theorem C5_error_isolation (pre post : List UploadedFile) (f : UploadedFile)
    (e : String) (he : f.parsed = Except.error e) :
    (process_uploaded_files (pre ++ f :: post)).1 =
        (process_uploaded_files (pre ++ post)).1
    ∧ f.name ∈ (process_uploaded_files (pre ++ f :: post)).2.1
    ∧ Diag.errorFile f.name e ∈ (process_uploaded_files (pre ++ f :: post)).2.2 := by
  have hok : okNonEmptyDfs (pre ++ f :: post) = okNonEmptyDfs (pre ++ post) := by
    rw [okNonEmptyDfs_append, okNonEmptyDfs_append]
    congr 1
    simp [okNonEmptyDfs, List.filterMap_cons, he]
  refine ⟨?_, ?_, ?_⟩
  · rw [process_fst, process_fst, hok]
  · rw [process_errs, errorNames_append]
    have : f.name ∈ errorNames (f :: post) := by
      simp [errorNames, List.filterMap_cons, he]
    exact List.mem_append_right _ this
  · rw [process_diags _ (by simp)]
    apply List.mem_append_left
    rw [fileDiags_append]
    have : Diag.errorFile f.name e ∈ fileDiags (f :: post) := by
      simp [fileDiags, List.filterMap_cons, he]
    exact List.mem_append_right _ this

/-- C5 witness: a failing file between two good ones. -/
theorem C5_witness :
    (process_uploaded_files
        [⟨"A", Except.ok ⟨["c"], [["1"]]⟩⟩, ⟨"B", Except.error "boom"⟩,
         ⟨"C", Except.ok ⟨["c"], [["2"]]⟩⟩]).1 =
      (process_uploaded_files
        [⟨"A", Except.ok ⟨["c"], [["1"]]⟩⟩, ⟨"C", Except.ok ⟨["c"], [["2"]]⟩⟩]).1
    ∧ "B" ∈ (process_uploaded_files
        [⟨"A", Except.ok ⟨["c"], [["1"]]⟩⟩, ⟨"B", Except.error "boom"⟩,
         ⟨"C", Except.ok ⟨["c"], [["2"]]⟩⟩]).2.1
    ∧ Diag.errorFile "B" "boom" ∈ (process_uploaded_files
        [⟨"A", Except.ok ⟨["c"], [["1"]]⟩⟩, ⟨"B", Except.error "boom"⟩,
         ⟨"C", Except.ok ⟨["c"], [["2"]]⟩⟩]).2.2 :=
  C5_error_isolation [⟨"A", Except.ok ⟨["c"], [["1"]]⟩⟩]
    [⟨"C", Except.ok ⟨["c"], [["2"]]⟩⟩] ⟨"B", Except.error "boom"⟩ "boom" rfl

/-- C6: when no uploaded file parses to a non-empty frame, the merged
result is the explicit empty frame, the no-data error and the top-level
warning are surfaced, and the invocation produces zero recipient
outputs (the model is a total function: no exception escapes). -/
theorem C6_empty_result (files : List UploadedFile) (names : List String)
    (shuffle : List Row → List Row) (todayStr : String)
    (hne : files ≠ [])
    (h : ∀ f ∈ files, ∀ df, f.parsed = Except.ok df → df.isEmptyDf = true) :
    (process_uploaded_files files).1 = emptyDf
    ∧ (appRun files names shuffle todayStr).1 = []
    ∧ Diag.errorNoData ∈ (appRun files names shuffle todayStr).2
    ∧ Diag.warnNoValidData ∈ (appRun files names shuffle todayStr).2 := by
  have hok : okNonEmptyDfs files = [] := by
    rw [okNonEmptyDfs, List.filterMap_eq_nil_iff]
    intro f hf
    cases hp : f.parsed with
    | ok df => simp [hp, h f hf df hp]
    | error e => simp [hp]
  have hfst : (process_uploaded_files files).1 = emptyDf := by
    rw [process_fst, hok]
    rfl
  have hdiag : (process_uploaded_files files).2.2 =
      fileDiags files ++ [Diag.errorNoData] := by
    rw [process_diags _ (by simpa [List.isEmpty_iff] using hne), hok]
    rfl
  have happ : appRun files names shuffle todayStr =
      ([], (process_uploaded_files files).2.2 ++ [Diag.warnNoValidData]) := by
    rw [appRun, hfst]
    rfl
  refine ⟨hfst, ?_, ?_, ?_⟩
  · rw [happ]
  · rw [happ]
    apply List.mem_append_left
    rw [hdiag]
    exact List.mem_append_right _ (by simp)
  · rw [happ]
    exact List.mem_append_right _ (by simp)

/-- C6 witness: one failing file and one empty file, two recipients. -/
theorem C6_witness :
    (process_uploaded_files
        [⟨"A", Except.error "bad utf-8"⟩, ⟨"B", Except.ok ⟨["c"], []⟩⟩]).1 = emptyDf
    ∧ (appRun [⟨"A", Except.error "bad utf-8"⟩, ⟨"B", Except.ok ⟨["c"], []⟩⟩]
        ["x", "y"] id "2026-10-12").1 = []
    ∧ Diag.errorNoData ∈ (appRun
        [⟨"A", Except.error "bad utf-8"⟩, ⟨"B", Except.ok ⟨["c"], []⟩⟩]
        ["x", "y"] id "2026-10-12").2
    ∧ Diag.warnNoValidData ∈ (appRun
        [⟨"A", Except.error "bad utf-8"⟩, ⟨"B", Except.ok ⟨["c"], []⟩⟩]
        ["x", "y"] id "2026-10-12").2 :=
  C6_empty_result _ ["x", "y"] id "2026-10-12" (by simp)
    (by
      intro f hf df hp
      simp only [List.mem_cons, List.mem_singleton] at hf
      rcases hf with rfl | rfl | h
      · simp at hp
      · simp at hp
        subst hp
        rfl
      · cases h)

/-! ### CSV round trip -/

theorem comma_ne_dquote : (',' : Char) ≠ dquote := by decide

theorem nl_ne_dquote : ('\n' : Char) ≠ dquote := by decide

/-- Consuming an escaped field body: parsing the quoted interior of an
encoded field, followed by the closing quote and a legal continuation,
recovers the field and leaves the continuation. -/
theorem parseQField_esc (f r : List Char) (hr : sepStart r) :
    parseQField (escQ f ++ dquote :: r) = (f, r) := by
  induction f with
  | nil =>
    rcases hr with rfl | ⟨t, rfl⟩ | ⟨t, rfl⟩
    · simp [escQ, parseQField]
    · simp [escQ, parseQField, comma_ne_dquote]
    · simp [escQ, parseQField, nl_ne_dquote]
  | cons c f ih =>
    by_cases hc : c = dquote
    · subst hc
      simp [escQ, parseQField, ih]
    · obtain ⟨a, as, ha⟩ : ∃ a as, escQ f ++ dquote :: r = a :: as := by
        rcases hE : escQ f with _ | ⟨b, bs⟩
        · exact ⟨dquote, r, rfl⟩
        · exact ⟨b, bs ++ dquote :: r, rfl⟩
      simp only [escQ, if_neg hc, List.cons_append]
      rw [ha]
      simp only [parseQField]
      rw [if_neg hc]
      rw [← ha, ih]

/-- Consuming an unquoted field: parsing a clean field followed by a
legal continuation recovers the field and leaves the continuation. -/
theorem parseUField_clean (f r : List Char) (hf : needsQuote f = false)
    (hr : sepStart r) : parseUField (f ++ r) = (f, r) := by
  induction f with
  | nil =>
    rcases hr with rfl | ⟨t, rfl⟩ | ⟨t, rfl⟩ <;> simp [parseUField]
  | cons c f ih =>
    rw [needsQuote, List.any_cons] at hf
    simp only [Bool.or_eq_false_iff] at hf
    obtain ⟨hc, hf2⟩ := hf
    have hc1 : ¬ c = ',' := by intro h; rw [h] at hc; simp [isSpecialChar] at hc
    have hc3 : ¬ c = '\n' := by intro h; rw [h] at hc; simp [isSpecialChar] at hc
    simp [parseUField, hc1, hc3, ih hf2]

/-- Consuming one encoded field. -/
theorem parseField_enc (f r : List Char) (hr : sepStart r) :
    parseField (encField f ++ r) = (f, r) := by
  by_cases hq : needsQuote f
  · rw [encField, if_pos hq]
    have hsh : (dquote :: (escQ f ++ [dquote])) ++ r =
        dquote :: (escQ f ++ dquote :: r) := by simp
    rw [hsh]
    simp [parseField, parseQField_esc f r hr]
  · rw [encField, if_neg (by simp [hq])]
    cases f with
    | nil =>
      simp only [List.nil_append]
      rcases hr with rfl | ⟨t, rfl⟩ | ⟨t, rfl⟩
      · simp [parseField, parseUField]
      · simp [parseField, parseUField, comma_ne_dquote]
      · simp [parseField, parseUField, nl_ne_dquote]
    | cons c f2 =>
      have hq' : needsQuote (c :: f2) = false := by simpa using hq
      have hc : c ≠ dquote := by
        intro hcc
        rw [needsQuote, List.any_cons] at hq'
        simp [isSpecialChar, hcc] at hq'
      simp only [List.cons_append]
      rw [parseField]
      rw [if_neg hc]
      have := parseUField_clean (c :: f2) r hq' hr
      simpa using this

/-- Consuming one encoded record: with fuel at least the field count,
parsing the encoded record followed by its newline recovers the record
and leaves the rest. -/
theorem parseRowF_enc (row : List (List Char)) :
    ∀ (fuel : Nat) (rest : List Char), row ≠ [] → row.length ≤ fuel →
      parseRowF fuel (encRow row ++ '\n' :: rest) = (row, rest) := by
  induction row with
  | nil => intro fuel rest h hf; exact absurd rfl h
  | cons f fs ih =>
    intro fuel rest hne hfuel
    cases fuel with
    | zero => simp at hfuel
    | succ fuel =>
      cases fs with
      | nil =>
        have hp := parseField_enc f ('\n' :: rest) (Or.inr (Or.inr ⟨rest, rfl⟩))
        simp only [encRow]
        simp [parseRowF, hp]
      | cons f2 fs2 =>
        have hsh : encRow (f :: f2 :: fs2) ++ '\n' :: rest =
            encField f ++ ',' :: (encRow (f2 :: fs2) ++ '\n' :: rest) := by
          simp [encRow]
        have hp := parseField_enc f (',' :: (encRow (f2 :: fs2) ++ '\n' :: rest))
          (Or.inr (Or.inl ⟨_, rfl⟩))
        have hih := ih fuel rest (by simp) (by simpa using Nat.le_of_succ_le_succ hfuel)
        rw [hsh]
        simp [parseRowF, hp, hih]

/-- An encoded record is at most one character shorter than the record
is long (fields may be empty but commas separate them). -/
theorem encRow_length (row : List (List Char)) :
    row.length ≤ (encRow row).length + 1 := by
  induction row with
  | nil => simp [encRow]
  | cons f fs ih =>
    cases fs with
    | nil => simp [encRow]
    | cons f2 fs2 =>
      simp only [encRow, List.length_append, List.length_cons] at ih ⊢
      omega

/-- Consuming one encoded record with the fuel the wrapper supplies. -/
theorem parseRow_enc (row : List (List Char)) (rest : List Char)
    (hrow : row ≠ []) :
    parseRow (encRow row ++ '\n' :: rest) = (row, rest) := by
  apply parseRowF_enc row _ rest hrow
  have := encRow_length row
  simp only [List.length_append, List.length_cons]
  omega

/-- An encoded table has at least one character per record (the line
terminators). -/
theorem encCSV_length (rowss : List (List (List Char))) :
    rowss.length ≤ (encCSV rowss).length := by
  induction rowss with
  | nil => simp [encCSV]
  | cons r rs ih =>
    simp only [encCSV, List.map_cons, List.flatten_cons, List.length_append,
      List.length_cons] at ih ⊢
    omega

/-- An encoded field never starts with a newline: a field containing a
newline is quoted, so its encoding starts with the quote character. -/
theorem encField_head_ne_nl (f : List Char) (a : Char) (as : List Char)
    (h : encField f = a :: as) : a ≠ '\n' := by
  intro ha
  subst ha
  rw [encField] at h
  by_cases hq : needsQuote f
  · rw [if_pos hq] at h
    injection h with h1 h2
    exact nl_ne_dquote h1.symm
  · rw [if_neg hq] at h
    subst h
    simp [needsQuote, isSpecialChar] at hq

/-- An encoded record never starts with a newline. -/
theorem encRow_head_ne_nl (r : List (List Char)) (a : Char) (as : List Char)
    (h : encRow r = a :: as) : a ≠ '\n' := by
  cases r with
  | nil => simp [encRow] at h
  | cons f fs =>
    cases fs with
    | nil =>
      simp only [encRow] at h
      exact encField_head_ne_nl f a as h
    | cons f2 fs2 =>
      simp only [encRow] at h
      cases hE : encField f with
      | nil =>
        rw [hE, List.nil_append] at h
        injection h with h1 h2
        intro hc
        rw [← h1] at hc
        exact absurd hc (by decide)
      | cons b bs =>
        rw [hE, List.cons_append] at h
        injection h with h1 h2
        rw [← h1]
        exact encField_head_ne_nl f b bs hE

/-- A record with at least one field, not consisting of the single empty
field, never encodes to a blank line. -/
theorem encRow_ne_nil (r : List (List Char)) (h1 : r ≠ []) (h2 : r ≠ [[]]) :
    encRow r ≠ [] := by
  cases r with
  | nil => exact absurd rfl h1
  | cons f fs =>
    cases fs with
    | nil =>
      have hf : f ≠ [] := by
        intro hf
        subst hf
        exact h2 rfl
      simp only [encRow, encField]
      by_cases hq : needsQuote f
      · rw [if_pos hq]
        simp
      · rw [if_neg hq]
        exact hf
    | cons f2 fs2 =>
      simp only [encRow]
      simp

/-- Parsing an encoded table with fuel at least the record count
recovers every record, provided no record encodes to a blank line
(a blank line would be skipped by the parser). -/
theorem parseCSVF_enc (rowss : List (List (List Char))) :
    ∀ fuel, (∀ r ∈ rowss, r ≠ []) → (∀ r ∈ rowss, encRow r ≠ []) →
      rowss.length ≤ fuel →
      parseCSVF fuel (encCSV rowss) = rowss := by
  induction rowss with
  | nil => intro fuel h hE hf; cases fuel <;> simp [parseCSVF, encCSV]
  | cons r rs ih =>
    intro fuel h hE hf
    cases fuel with
    | zero => simp at hf
    | succ fuel =>
      have hr : r ≠ [] := h r (by simp)
      have hrE : encRow r ≠ [] := hE r (by simp)
      have henc : encCSV (r :: rs) = encRow r ++ '\n' :: encCSV rs := by
        simp [encCSV]
      rw [henc]
      obtain ⟨a, as, ha⟩ : ∃ a as, encRow r = a :: as := by
        rcases hR : encRow r with _ | ⟨b, bs⟩
        · exact absurd hR hrE
        · exact ⟨b, bs, rfl⟩
      have hane : a ≠ '\n' := encRow_head_ne_nl r a as ha
      rw [ha, List.cons_append]
      simp only [parseCSVF]
      rw [if_neg hane]
      rw [← List.cons_append, ← ha, parseRow_enc r _ hr]
      simp only
      rw [ih fuel (fun x hx => h x (by simp [hx])) (fun x hx => hE x (by simp [hx]))
        (by simpa using Nat.le_of_succ_le_succ hf)]

/-- The serialize-then-parse law at the record level, for records none
of which encodes to a blank line. -/
theorem parseCSV_encCSV (rowss : List (List (List Char)))
    (h : ∀ r ∈ rowss, r ≠ []) (hE : ∀ r ∈ rowss, encRow r ≠ []) :
    parseCSV (encCSV rowss) = rowss := by
  apply parseCSVF_enc rowss _ h hE
  have := encCSV_length rowss
  omega

/-- A string whose character list is empty is the empty string. -/
theorem toList_eq_nil (s : String) (h : s.toList = []) : s = "" := by
  cases s with
  | mk data =>
    have hd : data = [] := h
    rw [hd]

/-- A list of strings whose cell-wise character lists form `[[]]` is the
single empty string. -/
theorem map_toList_ne_single_nil (l : List String) (h : l ≠ [""]) :
    l.map String.toList ≠ [[]] := by
  intro hc
  apply h
  cases l with
  | nil => simp at hc
  | cons s t =>
    simp only [List.map_cons] at hc
    injection hc with h1 h2
    have hs : s = "" := toList_eq_nil s h1
    have ht : t = [] := by simpa using h2
    rw [hs, ht]

/-- C7 (corrected), counterexample to the claim as stated: a
single-column share whose only cell is empty serializes to a header
line followed by a blank line; `pd.read_csv`, with its default
`skip_blank_lines=True`, drops the blank line, so re-parsing yields the
empty frame and the row is lost — the round trip does not reproduce the
record content. -/
theorem C7_counterexample :
    (read_csv (to_csv ⟨["col"], [[""]]⟩)).toOption = some (⟨["col"], []⟩ : Df)
    ∧ (read_csv (to_csv ⟨["col"], [[""]]⟩)).toOption ≠
        some (⟨["col"], [[""]]⟩ : Df) := by
  decide

/-- C7 (amended): serializing a share with the app's csv writer and
re-parsing the bytes with the same tabular parser reproduces the
identical record content and column order, provided no line of the
serialization is blank: the header and every row have at least one
cell, and neither the header nor any row is the single empty cell
(only a single-column share with an empty cell can serialize a blank
line, and that row is skipped on re-parse). -/
theorem C7_amended_roundtrip (df : Df) (hh : df.header ≠ [])
    (hh2 : df.header ≠ [""]) (hr : ∀ r ∈ df.rows, r ≠ [])
    (hr2 : ∀ r ∈ df.rows, r ≠ [""]) :
    read_csv (to_csv df) = Except.ok df := by
  obtain ⟨header, rows⟩ := df
  simp only at hh hh2 hr hr2
  have hforall : ∀ r ∈ (header :: rows).map (List.map String.toList), r ≠ [] := by
    intro r hrr
    simp only [List.map_cons, List.mem_cons] at hrr
    rcases hrr with rfl | hrr
    · simpa using hh
    · rw [List.mem_map] at hrr
      obtain ⟨row, hrow, rfl⟩ := hrr
      simpa using hr row hrow
  have hEforall : ∀ r ∈ (header :: rows).map (List.map String.toList),
      encRow r ≠ [] := by
    intro r hrr
    simp only [List.map_cons, List.mem_cons] at hrr
    rcases hrr with rfl | hrr
    · exact encRow_ne_nil _ (by simpa using hh)
        (map_toList_ne_single_nil header hh2)
    · rw [List.mem_map] at hrr
      obtain ⟨row, hrow, rfl⟩ := hrr
      exact encRow_ne_nil _ (by simpa using hr row hrow)
        (map_toList_ne_single_nil row (hr2 row hrow))
  have hparse : parseCSV ((to_csv ⟨header, rows⟩).toList) =
      (List.map String.toList header) :: rows.map (List.map String.toList) := by
    have hsh : (to_csv ⟨header, rows⟩).toList =
        encCSV ((header :: rows).map (List.map String.toList)) := rfl
    rw [hsh, parseCSV_encCSV _ hforall hEforall, List.map_cons]
  rw [read_csv, hparse]
  have hcomp : ∀ l : List String, (l.map String.toList).map String.mk = l := by
    intro l
    rw [List.map_map]
    have hid : (String.mk ∘ String.toList) = id := funext fun s => rfl
    rw [hid, List.map_id]
  show (Except.ok (Df.mk ((List.map String.toList header).map String.mk)
        ((rows.map (List.map String.toList)).map (fun r => r.map String.mk)))
      : Except String Df) =
    Except.ok (Df.mk header rows)
  rw [hcomp, List.map_map]
  have hid2 : ((fun r : List (List Char) => r.map String.mk) ∘ List.map String.toList)
      = (id : List String → List String) := funext fun r => hcomp r
  rw [hid2, List.map_id]

/-- C7 witness: a share whose cells exercise commas, quotes and plain
text. -/
theorem C7_witness :
    read_csv (to_csv ⟨["a", "b"], [["1", "x,y"], ["2", "q\"z"]]⟩) =
      Except.ok ⟨["a", "b"], [["1", "x,y"], ["2", "q\"z"]]⟩ :=
  C7_amended_roundtrip ⟨["a", "b"], [["1", "x,y"], ["2", "q\"z"]]⟩ (by decide)
    (by decide) (by decide) (by decide)

/-! ### The download loop -/

/-- Dropping the first `k` outputs of the loop is the loop started `k`
recipients later. -/
theorem recipientOutputsGo_drop (splits : List Df) (today : String) :
    ∀ (k : Nat) (names : List String) (i : Nat),
      (recipientOutputsGo splits today i names).drop k =
        recipientOutputsGo splits today (i + k) (names.drop k) := by
  intro k
  induction k with
  | zero => intro names i; simp
  | succ k ih =>
    intro names i
    cases names with
    | nil => simp [recipientOutputsGo]
    | cons n rest =>
      simp only [recipientOutputsGo, List.drop_succ_cons]
      rw [ih rest (i + 1)]
      congr 1
      omega

/-- When every share from position `i` on is empty and the indices stay
in range, the loop emits exactly the no-leads messages. -/
theorem recipientOutputsGo_all_empty (splits : List Df) (today : String) :
    ∀ (names : List String) (i : Nat),
      i + names.length ≤ splits.length →
      (∀ j (hj : j < splits.length), i ≤ j →
        (splits.get ⟨j, hj⟩).isEmptyDf = true) →
      recipientOutputsGo splits today i names =
        names.map RecipientOutput.noLeads := by
  intro names
  induction names with
  | nil => intro i h1 h2; rfl
  | cons n rest ih =>
    intro i h1 h2
    have hi : i < splits.length := by
      simp only [List.length_cons] at h1
      omega
    simp only [recipientOutputsGo, List.map_cons]
    rw [dif_pos hi, if_pos (h2 i hi (le_refl i))]
    congr 1
    apply ih (i + 1)
    · simp only [List.length_cons] at h1
      omega
    · intro j hj hij
      exact h2 j hj (by omega)

/-- When the indices stay in range, the loop never emits the
no-split-data message. -/
theorem recipientOutputsGo_no_noSplit (splits : List Df) (today : String) :
    ∀ (names : List String) (i : Nat),
      i + names.length ≤ splits.length →
      ∀ o ∈ recipientOutputsGo splits today i names,
        o.isNoSplitData = false := by
  intro names
  induction names with
  | nil => intro i h o ho; simp [recipientOutputsGo] at ho
  | cons n rest ih =>
    intro i h o ho
    have hi : i < splits.length := by
      simp only [List.length_cons] at h
      omega
    simp only [recipientOutputsGo, List.mem_cons] at ho
    rcases ho with rfl | ho
    · rw [dif_pos hi]
      by_cases he : splits[i].isEmptyDf = true
      · simp [he, RecipientOutput.isNoSplitData]
      · simp [he, RecipientOutput.isNoSplitData]
    · apply ih (i + 1) _ o ho
      simp only [List.length_cons] at h
      omega

/-- Every download the loop emits carries the file name synthesized
from the date and its recipient's name. -/
theorem recipientOutputsGo_download_filename (splits : List Df) (today : String) :
    ∀ (names : List String) (i : Nat) (name fn bytes : String) (k : Nat),
      RecipientOutput.download name fn bytes k ∈
          recipientOutputsGo splits today i names →
      fn = filenameFor today name := by
  intro names
  induction names with
  | nil => intro i name fn bytes k h; simp [recipientOutputsGo] at h
  | cons n rest ih =>
    intro i name fn bytes k h
    simp only [recipientOutputsGo, List.mem_cons] at h
    rcases h with h | h
    · by_cases hi : i < splits.length
      · rw [dif_pos hi] at h
        by_cases he : (splits.get ⟨i, hi⟩).isEmptyDf
        · rw [if_pos he] at h
          exact absurd h (by simp)
        · rw [if_neg he] at h
          injection h with h1 h2 h3 h4
          rw [h2, h1]
      · rw [dif_neg hi] at h
        exact absurd h (by simp)
    · exact ih (i + 1) name fn bytes k h

/-- The length of the split list is the recipient count. -/
theorem splitShares_length (header : List String) (rows : List Row) (N : Nat)
    (hN : 1 ≤ N) : (splitShares header rows N).length = N := by
  rw [splitShares, List.length_map, length_array_split _ _ hN]

/-- Section sizes vanish from position `T` on. -/
theorem sectionSizes_getElem_zero (T N j : Nat) (hjN : j < N) (hTj : T ≤ j)
    (hlen : j < (sectionSizes T N).length) :
    (sectionSizes T N)[j] = 0 := by
  have hTN : T < N := lt_of_le_of_lt hTj hjN
  have hs : sectionSizes T N = List.replicate T 1 ++ List.replicate (N - T) 0 := by
    rw [sectionSizes, Nat.mod_eq_of_lt hTN, Nat.div_eq_of_lt hTN]
  simp only [hs]
  rw [List.getElem_append_right (by simpa using hTj)]
  simp

/-- A share at a position past the record count is empty. -/
theorem splitShares_get_empty (header : List String) (rows : List Row) (N : Nat)
    (j : Nat) (hj : j < (splitShares header rows N).length)
    (hTj : rows.length ≤ j) :
    ((splitShares header rows N).get ⟨j, hj⟩).isEmptyDf = true := by
  rcases Nat.eq_zero_or_pos N with rfl | hN
  · exfalso
    rw [splitShares, List.length_map, array_split, length_splitBySizes] at hj
    have hz : (sectionSizes rows.length 0).length = rows.length := by
      simp [sectionSizes, Nat.mod_zero, Nat.div_zero]
    omega
  have hjN : j < N := by
    rwa [splitShares_length _ _ _ hN] at hj
  have hj2 : j < (array_split rows N).length := by
    rw [length_array_split _ _ hN]
    exact hjN
  rw [List.get_eq_getElem]
  have hsplit : (splitShares header rows N)[j] =
      Df.mk header ((array_split rows N)[j]) := by
    simp only [splitShares]
    rw [List.getElem_map]
  rw [hsplit]
  have hj4 : j < (sectionSizes rows.length N).length := by
    rw [length_sectionSizes _ _ hN]
    exact hjN
  have hj3 : j < ((array_split rows N).map List.length).length := by
    rw [List.length_map]
    exact hj2
  have hpiece : (array_split rows N)[j] = ([] : List Row) := by
    apply List.eq_nil_of_length_eq_zero
    have h1 : ((array_split rows N).map List.length)[j] =
        ((array_split rows N)[j]).length := List.getElem_map _
    rw [← h1]
    simp only [map_length_array_split rows N hN]
    exact sectionSizes_getElem_zero rows.length N j hjN hTj hj4
  rw [hpiece]
  rfl

/-- C3 (corrected), counterexample to the claim as stated: with one
record and two recipients, the size-0 recipient `y` does appear in the
loop output, but only as a textual no-leads message — there is no
(name, output-bytes) download pair for `y`, contradicting the claim that
every size-0 recipient receives an empty-but-valid tabular blob. -/
theorem C3_counterexample :
    (∃ o ∈ recipientOutputs ["x", "y"] (splitShares ["col"] [["v"]] 2)
        "2026-10-12", o.recipientName = "y")
    ∧ ∀ o ∈ recipientOutputs ["x", "y"] (splitShares ["col"] [["v"]] 2)
        "2026-10-12", o.recipientName = "y" → o.isDownload = false := by
  decide

/-- C3 (amended): with `T < N`, the trailing `N - T` shares have size 0,
and each size-0 recipient is explicitly represented in the loop output —
but by the textual no-leads message, not by a (name, output-bytes)
download pair. -/
theorem C3_amended_empty_shares (header : List String) (rows : List Row)
    (names : List String) (today : String) (hN : 2 ≤ names.length)
    (hT : rows.length < names.length) :
    (array_split rows names.length).map List.length =
      List.replicate rows.length 1 ++
        List.replicate (names.length - rows.length) 0
    ∧ (recipientOutputs names (splitShares header rows names.length)
          today).drop rows.length =
        (names.drop rows.length).map RecipientOutput.noLeads := by
  have h1 : 1 ≤ names.length := by omega
  constructor
  · rw [map_length_array_split rows names.length h1, sectionSizes,
      Nat.mod_eq_of_lt hT, Nat.div_eq_of_lt hT]
  · rw [recipientOutputs, recipientOutputsGo_drop]
    apply recipientOutputsGo_all_empty
    · rw [splitShares_length _ _ _ h1]
      simp only [List.length_drop]
      omega
    · intro j hj hij
      apply splitShares_get_empty
      omega

/-- C3 witness: three records, five recipients. -/
theorem C3_witness :
    ((array_split ([["v"], ["w"], ["u"]] : List Row) 5).map List.length =
      List.replicate 3 1 ++ List.replicate (5 - 3) 0)
    ∧ (recipientOutputs ["p", "q", "r", "s", "t"]
          (splitShares ["col"] [["v"], ["w"], ["u"]] 5) "2026-10-12").drop 3 =
        (["p", "q", "r", "s", "t"].drop 3).map RecipientOutput.noLeads :=
  C3_amended_empty_shares ["col"] [["v"], ["w"], ["u"]]
    ["p", "q", "r", "s", "t"] "2026-10-12" (by decide) (by decide)

/-- C8 (corrected), counterexample to the claim as stated: the code only
replaces the space character, not every whitespace character — for a
recipient name containing a tab, the synthesized file name differs from
the name obtained by replacing all whitespace with underscores. -/
theorem C8_counterexample :
    filenameFor "2026-10-12" "a\tb" ≠
      "leads_" ++ "2026-10-12" ++ "_" ++ sanitizeWhitespaceSpec "a\tb" ++
        ".csv" := by
  decide

/-- C8 (amended): every download the loop emits for a recipient carries
the file name `leads_<date>_<name with each space character replaced by
an underscore>.csv`; every character other than a space — including
other whitespace and path-unsafe characters — passes through
unchanged. -/
theorem C8_amended_filename (today : String) (names : List String)
    (splits : List Df) (name fn bytes : String) (k : Nat)
    (h : RecipientOutput.download name fn bytes k ∈
      recipientOutputs names splits today) :
    fn = "leads_" ++ today ++ "_" ++
        String.mk (name.toList.map fun c => if c = ' ' then '_' else c) ++
        ".csv" := by
  have hfn := recipientOutputsGo_download_filename splits today names 0
    name fn bytes k h
  rw [hfn]
  rfl

/-- C8 witness: a download emitted for recipient `Jon Doe`. -/
theorem C8_witness :
    ("leads_2026-10-12_Jon_Doe.csv" : String) =
      "leads_" ++ "2026-10-12" ++ "_" ++
        String.mk (("Jon Doe" : String).toList.map
          fun c => if c = ' ' then '_' else c) ++ ".csv" :=
  C8_amended_filename "2026-10-12" ["Jon Doe"] [⟨["c"], [["1"]]⟩]
    "Jon Doe" "leads_2026-10-12_Jon_Doe.csv" "c\n1\n" 1 (by decide)

/-- C9: downstream of the shuffle the pipeline is a pure function — two
runs that agree on the shuffled records, the column header, the
recipient list and the date produce identical share contents, share
sizes, serialized bytes and file names. -/
theorem C9_determinism (h1 h2 : List String) (s1 s2 : List Row)
    (n1 n2 : List String) (d1 d2 : String)
    (hh : h1 = h2) (hs : s1 = s2) (hn : n1 = n2) (hd : d1 = d2) :
    splitShares h1 s1 n1.length = splitShares h2 s2 n2.length
    ∧ (splitShares h1 s1 n1.length).map (fun df => df.rows.length) =
        (splitShares h2 s2 n2.length).map (fun df => df.rows.length)
    ∧ downstream h1 s1 n1 d1 = downstream h2 s2 n2 d2 := by
  subst hh
  subst hs
  subst hn
  subst hd
  exact ⟨rfl, rfl, rfl⟩

/-- C9 witness. -/
theorem C9_witness :
    splitShares ["c"] [["1"], ["2"]] (["x", "y"] : List String).length =
        splitShares ["c"] [["1"], ["2"]] (["x", "y"] : List String).length
    ∧ (splitShares ["c"] [["1"], ["2"]] (["x", "y"] : List String).length).map
          (fun df => df.rows.length) =
        (splitShares ["c"] [["1"], ["2"]] (["x", "y"] : List String).length).map
          (fun df => df.rows.length)
    ∧ downstream ["c"] [["1"], ["2"]] ["x", "y"] "2026-10-12" =
        downstream ["c"] [["1"], ["2"]] ["x", "y"] "2026-10-12" :=
  C9_determinism ["c"] ["c"] [["1"], ["2"]] [["1"], ["2"]] ["x", "y"]
    ["x", "y"] "2026-10-12" "2026-10-12" rfl rfl rfl rfl

/-- C10 (implicit): for every record count (including 0 and fewer
records than recipients) and every recipient count `N ≥ 2`, the split
returns exactly `N` shares, so the per-recipient index guard always
holds and the no-split-data fallback branch is unreachable. -/
theorem C10_guard_unreachable (header : List String) (rows : List Row)
    (names : List String) (today : String) (hN : 2 ≤ names.length) :
    (splitShares header rows names.length).length = names.length
    ∧ ∀ o ∈ recipientOutputs names (splitShares header rows names.length)
        today, o.isNoSplitData = false := by
  have h1 : 1 ≤ names.length := by omega
  have hlen := splitShares_length header rows names.length h1
  refine ⟨hlen, ?_⟩
  rw [recipientOutputs]
  apply recipientOutputsGo_no_noSplit
  omega

/-- C10 witness: zero records, two recipients. -/
theorem C10_witness :
    (splitShares ["c"] ([] : List Row) (["x", "y"] : List String).length).length
        = (["x", "y"] : List String).length
    ∧ ∀ o ∈ recipientOutputs ["x", "y"]
        (splitShares ["c"] ([] : List Row) (["x", "y"] : List String).length)
        "2026-10-12", o.isNoSplitData = false :=
  C10_guard_unreachable ["c"] [] ["x", "y"] "2026-10-12" (by decide)

end LeadSplitter
